import Mathlib

/-!
Verification of the inode-identity, reference-counting and request-handler
layer of the passthrough_ll filesystem server.  The definitions below are a
shallow embedding of `example/passthrough_ll.c`: host syscall outcomes are
supplied as explicit environment values, the inode hash table becomes a list
of records, and every handler is a pure function from state and environment
to a reply plus the successor state.
-/

namespace PassthroughLL

/-- Errno value EPERM. -/
def EPERM : Nat := 1

/-- Errno value EIO. -/
def EIO : Nat := 5

/-- Errno value ENOMEM. -/
def ENOMEM : Nat := 12

/-- Errno value EINVAL. -/
def EINVAL : Nat := 22

/-- Errno value ENAMETOOLONG. -/
def ENAMETOOLONG : Nat := 36

/-- Errno value ENOSYS. -/
def ENOSYS : Nat := 38

/-- PATH_MAX on the host. -/
def PATH_MAX : Nat := 4096

/-- Host identity pair, `struct lo_key`: (inode number, device id). -/
structure LoKey where
  ino : Nat
  dev : Nat
deriving DecidableEq

/-- The fields of a host `struct stat` that passthrough_ll reads. -/
structure Stat where
  st_ino : Nat
  st_dev : Nat
  st_mode : Nat
deriving DecidableEq

/-- The file-type test `S_ISLNK(m)`: `(m & S_IFMT) == S_IFLNK`. -/
def S_ISLNK (m : Nat) : Bool := decide (m &&& 0xF000 = 0xA000)

/-- Directory file-type bits `S_IFDIR`. -/
def S_IFDIR : Nat := 0x4000

/-- The file-type test `S_ISDIR(m)`: `(m & S_IFMT) == S_IFDIR`. -/
def S_ISDIR (m : Nat) : Bool := decide (m &&& 0xF000 = S_IFDIR)

/-- One `struct lo_inode`.  `id` stands for the memory identity of the C
object (the pointer value used as the opaque fuse handle); pointers are
never 0 so well-formed states keep `0 < id`. -/
structure LoInode where
  id : Nat
  fd : Nat
  is_symlink : Bool
  key : LoKey
  refcount : Nat
  version_offset : Nat
  ireg_refid : Nat
deriving DecidableEq

/-- The mutable inode-table state of `struct lo_data`: the hash table
`lo->inodes`, a fresh-identity allocator standing for malloc, and the
refcount of the preallocated root inode (which is never in the table). -/
structure LoState where
  inodes : List LoInode
  nextId : Nat
  rootRefcount : Nat
deriving DecidableEq

/-- `HASH_FIND` by key: first table entry whose `(dev,ino)` equals `k`. -/
def tableFind (t : List LoInode) (k : LoKey) : Option LoInode :=
  t.find? (fun i => decide (i.key = k))

/-- Lookup of a table entry by memory identity (pointer). -/
def tableFindId (t : List LoInode) (i0 : Nat) : Option LoInode :=
  t.find? (fun i => decide (i.id = i0))

/-- Increment the refcount of the entry with identity `i0`. -/
def bumpRef (t : List LoInode) (i0 : Nat) : List LoInode :=
  t.map (fun i => if i.id = i0 then { i with refcount := i.refcount + 1 } else i)

/-- `lo_find`: find the inode for the stat's `(dev,ino)`; on a hit the
refcount is incremented and the (updated) entry is returned. -/
def lo_find (s : LoState) (st : Stat) : Option LoInode × LoState :=
  match tableFind s.inodes ⟨st.st_ino, st.st_dev⟩ with
  | some p =>
    (some { p with refcount := p.refcount + 1 },
     { s with inodes := bumpRef s.inodes p.id })
  | none => (none, s)

/-- Externally visible effects of `unref_inode` when an inode dies: the
`close(inode->fd)` and the `put_shared` release of the registry slot
(recorded as the `ireg_refid` passed in the IREG_PUT message). -/
structure UnrefEffects where
  closedFd : Option Nat
  putSharedRefid : Option Nat
deriving DecidableEq

/-- `unref_inode(lo, inode, n)`: NULL pointer is a no-op; otherwise the
refcount is decremented by `n` and, when it reaches 0, the entry is removed
from the table, its fd closed and its registry slot released. -/
def unref_inode (s : LoState) (ptr : Option Nat) (n : Nat) :
    LoState × UnrefEffects :=
  match ptr with
  | none => (s, ⟨none, none⟩)
  | some i0 =>
    match tableFindId s.inodes i0 with
    | none => (s, ⟨none, none⟩)
    | some ino =>
      if ino.refcount - n = 0 then
        ({ s with inodes := s.inodes.filter (fun i => decide (i.id ≠ i0)) },
         ⟨some ino.fd, some ino.ireg_refid⟩)
      else
        ({ s with inodes := s.inodes.map (fun i => if i.id = i0 then { i with refcount := i.refcount - n } else i) }, ⟨none, none⟩)

/-- Shared version table read, `get_version`: 0 when versioning is disabled
for the inode, else the (atomically loaded) slot value. -/
def get_version (vt : Nat → Int) (inode : LoInode) : Int :=
  if inode.version_offset = 0 then 0 else vt inode.version_offset

/-- Shared version bump, `update_version`: no-op when `version_offset` is 0,
else an atomic fetch-add of 1 on the inode's slot. -/
def update_version (vt : Nat → Int) (inode : LoInode) : Nat → Int :=
  if inode.version_offset = 0 then vt
  else fun i => if i = inode.version_offset then vt i + 1 else vt i

/-- The `fuse_entry_param` fields filled in by `lo_do_lookup`. -/
structure EntryParam where
  ino : Nat
  attr : Stat
  initial_version : Int
  version_offset : Nat
deriving DecidableEq

/-- Host outcomes consumed by one `lo_do_lookup` call: the `openat` of the
name under the parent fd, the `fstatat` of the new fd, whether `calloc`
succeeds, the registry's answer to `get_shared`, and the second `fstatat`
on the canonical inode's fd. -/
structure LookupEnv where
  openat : Except Nat Nat
  fstatNew : Except Nat Stat
  allocOk : Bool
  sharedOffset : Nat
  sharedRefid : Nat
  fstatInode : Except Nat Stat

/-- `lo_do_lookup`: open the child O_PATH, stat it, find-or-intern the
canonical inode for its `(dev,ino)`, then stat the canonical fd to fill the
reply entry.  Errors return the errno and leave whatever side effects had
already happened (a failed second stat drops the transient reference). -/
def lo_do_lookup (s : LoState) (vt : Nat → Int) (env : LookupEnv) :
    Except Nat EntryParam × LoState :=
  match env.openat with
  | .error e => (.error e, s)
  | .ok newfd =>
    match env.fstatNew with
    | .error e => (.error e, s)
    | .ok attr =>
      match lo_find s attr with
      | (some inode, s1) =>
        match env.fstatInode with
        | .error e => (.error e, (unref_inode s1 (some inode.id) 1).1)
        | .ok attr2 =>
          (.ok { ino := inode.id, attr := attr2,
                 initial_version := get_version vt inode,
                 version_offset := inode.version_offset }, s1)
      | (none, _) =>
        if env.allocOk then
          let inode : LoInode :=
            { id := s.nextId, fd := newfd, is_symlink := S_ISLNK attr.st_mode,
              key := ⟨attr.st_ino, attr.st_dev⟩, refcount := 1,
              version_offset := env.sharedOffset, ireg_refid := env.sharedRefid }
          let s1 : LoState :=
            { s with inodes := inode :: s.inodes, nextId := s.nextId + 1 }
          match env.fstatInode with
          | .error e => (.error e, (unref_inode s1 (some inode.id) 1).1)
          | .ok attr2 =>
            (.ok { ino := inode.id, attr := attr2,
                   initial_version := get_version vt inode,
                   version_offset := inode.version_offset }, s1)
        else (.error ENOMEM, s)

/-- `lookup_name`: stat the name under the parent fd and `lo_find` the
result's key; no entry is ever created. -/
def lookup_name (s : LoState) (statRes : Option Stat) : Option LoInode × LoState :=
  match statRes with
  | none => (none, s)
  | some st => lo_find s st

/-- Host outcomes consumed by `lo_unlink` / `lo_rmdir`: the `fstatat` of the
name (feeding `lookup_name`) and the `unlinkat` result when invoked. -/
structure UnlinkEnv where
  statRes : Option Stat
  unlinkatErr : Option Nat

/-- Reply, successor state, version table and whether the host `unlinkat`
was invoked, for `lo_unlink` / `lo_rmdir`. -/
structure UnlinkOut where
  reply : Nat
  state : LoState
  vt : Nat → Int
  calledUnlinkat : Bool

/-- `lo_unlink`: look the child up in the table ( EIO when absent, without
touching the host), `unlinkat`, bump child and parent versions on success,
release the transient reference. -/
def lo_unlink (s : LoState) (vt : Nat → Int) (dir : LoInode) (env : UnlinkEnv) :
    UnlinkOut :=
  match lookup_name s env.statRes with
  | (none, s1) => ⟨ EIO, s1, vt, false⟩
  | (some inode, s1) =>
    match env.unlinkatErr with
    | some e => ⟨e, (unref_inode s1 (some inode.id) 1).1, vt, true⟩
    | none =>
      ⟨0, (unref_inode s1 (some inode.id) 1).1,
       update_version (update_version vt inode) dir, true⟩

/-- `lo_rmdir`: identical control flow to `lo_unlink` with AT_REMOVEDIR. -/
def lo_rmdir (s : LoState) (vt : Nat → Int) (dir : LoInode) (env : UnlinkEnv) :
    UnlinkOut :=
  match lookup_name s env.statRes with
  | (none, s1) => ⟨ EIO, s1, vt, false⟩
  | (some inode, s1) =>
    match env.unlinkatErr with
    | some e => ⟨e, (unref_inode s1 (some inode.id) 1).1, vt, true⟩
    | none =>
      ⟨0, (unref_inode s1 (some inode.id) 1).1,
       update_version (update_version vt inode) dir, true⟩

/-- Reply of `lo_readlink`. -/
inductive ReadlinkReply where
  | rerr (e : Nat)
  | target (cs : List Char)
deriving DecidableEq

/-- `lo_readlink`: `readlinkat` into a `PATH_MAX + 1` buffer.  The
environment is the link's content (error, or the full target string, of
which the syscall stores at most the buffer size and returns that count).
A count equal to the buffer size is ambiguous and replies ENAMETOOLONG. -/
def lo_readlink (env : Except Nat (List Char)) : ReadlinkReply :=
  match env with
  | .error e => .rerr e
  | .ok cs =>
    if min cs.length (PATH_MAX + 1) = PATH_MAX + 1 then .rerr ENAMETOOLONG
    else .target (cs.take (min cs.length (PATH_MAX + 1)))

/-- Host outcomes consumed by one `lo_rename` call: the two `lookup_name`
stats, the `flags` argument, whether the kernel headers define
`SYS_renameat2`, and the outcomes of the flagged and the plain rename
(`none` means success). -/
structure RenameEnv where
  statOld : Option Stat
  statNew : Option Stat
  flags : Nat
  hasRenameat2 : Bool
  renameat2Err : Option Nat
  renameatErr : Option Nat

/-- Reply, version table and successor state of `lo_rename`. -/
structure RenameOut where
  reply : Nat
  vt : Nat → Int
  state : LoState

/-- `lo_rename`: look up source and target inodes, EIO when the source is
not in the table; with nonzero flags use `renameat2` (EINVAL when absent or
ENOSYS) and reply without touching version counters; with zero flags use
plain `renameat` and on success bump source inode, target inode (if
present), source parent and target parent; finally drop the two transient
references. -/
def lo_rename (s : LoState) (vt : Nat → Int) (dirOld dirNew : LoInode)
    (env : RenameEnv) : RenameOut :=
  let r1 := lookup_name s env.statOld
  let r2 := lookup_name r1.2 env.statNew
  let oldinode := r1.1
  let newinode := r2.1
  let s2 := r2.2
  let unrefs := fun (st : LoState) =>
    (unref_inode (unref_inode st (oldinode.map LoInode.id) 1).1
      (newinode.map LoInode.id) 1).1
  match oldinode with
  | none => ⟨ EIO, vt, unrefs s2⟩
  | some oi =>
    if env.flags ≠ 0 then
      if ¬ env.hasRenameat2 then ⟨EINVAL, vt, unrefs s2⟩
      else
        match env.renameat2Err with
        | some e => if e = ENOSYS then ⟨EINVAL, vt, unrefs s2⟩ else ⟨e, vt, unrefs s2⟩
        | none => ⟨0, vt, unrefs s2⟩
    else
      match env.renameatErr with
      | some e => ⟨e, vt, unrefs s2⟩
      | none =>
        let vt1 := update_version vt oi
        let vt2 := match newinode with
          | some ni => update_version vt1 ni
          | none => vt1
        let vt3 := update_version vt2 dirOld
        let vt4 := update_version vt3 dirNew
        ⟨0, vt4, unrefs s2⟩

/-- Effective credentials of the server process (`struct lo_cred` holds the
saved pair). -/
structure Creds where
  euid : Nat
  egid : Nat
deriving DecidableEq

/-- A credential syscall issued by the shim, with its argument. -/
inductive SysCall where
  | setresgid (g : Nat)
  | setresuid (u : Nat)
deriving DecidableEq

/-- Host outcomes of the credential switch: whether each `setres*id`
syscall succeeds, the errno values on failure, and whether the rollback
`setresgid` to the saved gid succeeds (the code ignores its result). -/
structure CredEnv where
  setgidOk : Bool
  setgidErrno : Nat
  setuidOk : Bool
  setuidErrno : Nat
  rollbackOk : Bool

/-- Result of `lo_change_cred`: the returned errno (0 = success), the
process credentials after the call, the saved old credentials, and the
trace of credential syscalls issued. -/
structure ChangeCredOut where
  res : Nat
  creds : Creds
  old : Creds
  calls : List SysCall

/-- `lo_change_cred`: save the current effective ids, switch egid to the
caller's gid, then euid to the caller's uid; if the euid switch fails, roll
the egid back before returning the saved errno. -/
def lo_change_cred (c : Creds) (ctx : Creds) (env : CredEnv) : ChangeCredOut :=
  let old := c
  if ¬ env.setgidOk then
    ⟨env.setgidErrno, c, old, [.setresgid ctx.egid]⟩
  else
    let c1 : Creds := { c with egid := ctx.egid }
    if ¬ env.setuidOk then
      let c2 := if env.rollbackOk then { c1 with egid := old.egid } else c1
      ⟨env.setuidErrno, c2, old,
       [.setresgid ctx.egid, .setresuid ctx.euid, .setresgid old.egid]⟩
    else
      ⟨0, { c1 with euid := ctx.euid }, old,
       [.setresgid ctx.egid, .setresuid ctx.euid]⟩

/-- Host outcomes of the two restoring syscalls in `lo_restore_cred`. -/
structure RestoreEnv where
  restoreUidOk : Bool
  restoreGidOk : Bool

/-- Result of `lo_restore_cred`: either the restored credentials, or a
fatal process abort (the C code calls `err(1, ...)`). -/
inductive RestoreOut where
  | ok (c : Creds)
  | fatal
deriving DecidableEq

/-- `lo_restore_cred`: restore euid then egid to the saved values; if
either syscall fails the process aborts. -/
def lo_restore_cred (c : Creds) (old : Creds) (env : RestoreEnv) : RestoreOut :=
  if ¬ env.restoreUidOk then .fatal
  else
    let c1 : Creds := { c with euid := old.euid }
    if ¬ env.restoreGidOk then .fatal
    else .ok { c1 with egid := old.egid }

/-- Host outcomes of one attempt of the `lo_parent_and_name` loop: the
`/proc/self/fd` readlink can fail, overflow the buffer, or yield a path
without a slash; otherwise the path is the root itself (`last == path`,
only a leaf stat follows) or a deeper path (parent stat, table find, leaf
stat). -/
inductive PnEnvStep where
  | rlFail
  | rlOverflow
  | rlNoSlash
  | atRoot (leafStat : Option Stat)
  | subdir (parentStat : Option Stat) (leafStat : Option Stat)

/-- Classification of one `lo_parent_and_name` attempt: success with the
parent (none = the root inode), a non-retryable failure, or a retryable
failure, each with the state as left by the attempt's side effects. -/
inductive PnStep where
  | pok (parentId : Option Nat) (s : LoState)
  | noretry (s : LoState)
  | retryable (s : LoState)

/-- One attempt of `lo_parent_and_name` for the inode with key `key`:
readlink problems fail without retry; a missing or unmatched parent or
leaf is retryable.  Taking the root as parent bumps the root refcount, and
a retryable failure after a parent was acquired drops that reference. -/
def pn_step (key : LoKey) (s : LoState) (e : PnEnvStep) : PnStep :=
  match e with
  | .rlFail => .noretry s
  | .rlOverflow => .noretry s
  | .rlNoSlash => .noretry s
  | .atRoot leafStat =>
    let s1 : LoState := { s with rootRefcount := s.rootRefcount + 1 }
    match leafStat with
    | none => .retryable { s1 with rootRefcount := s1.rootRefcount - 1 }
    | some lst =>
      if lst.st_dev = key.dev ∧ lst.st_ino = key.ino then .pok none s1
      else .retryable { s1 with rootRefcount := s1.rootRefcount - 1 }
  | .subdir parentStat leafStat =>
    match parentStat with
    | none => .retryable s
    | some pst =>
      match lo_find s pst with
      | (none, s1) => .retryable s1
      | (some p, s1) =>
        match leafStat with
        | none => .retryable (unref_inode s1 (some p.id) 1).1
        | some lst =>
          if lst.st_dev = key.dev ∧ lst.st_ino = key.ino then .pok (some p.id) s1
          else .retryable (unref_inode s1 (some p.id) 1).1

/-- Result of `lo_parent_and_name`: success with the owned parent reference
or failure with an errno, together with the state and the number of
attempts performed. -/
inductive PnRes where
  | ok (parentId : Option Nat) (s : LoState) (attempts : Nat)
  | pfail (e : Nat) (s : LoState) (attempts : Nat)

/-- The retry loop of `lo_parent_and_name`: `retries` is the remaining
retry budget, `k` indexes the attempt for the environment. -/
def pnLoop (att : Nat → PnEnvStep) (key : LoKey) :
    LoState → Nat → Nat → PnRes
  | s, 0, k =>
    match pn_step key s (att k) with
    | .pok p s1 => .ok p s1 (k + 1)
    | .noretry s1 => .pfail EIO s1 (k + 1)
    | .retryable s1 => .pfail EIO s1 (k + 1)
  | s, r + 1, k =>
    match pn_step key s (att k) with
    | .pok p s1 => .ok p s1 (k + 1)
    | .noretry s1 => .pfail EIO s1 (k + 1)
    | .retryable s1 => pnLoop att key s1 r (k + 1)

/-- `lo_parent_and_name`: run the attempt loop with a retry budget of 2. -/
def lo_parent_and_name (att : Nat → PnEnvStep) (key : LoKey) (s : LoState) :
    PnRes :=
  pnLoop att key s 2 0

/-- Number of attempts performed by a `lo_parent_and_name` run. -/
def pnAttempts : PnRes → Nat
  | .ok _ _ a => a
  | .pfail _ _ a => a

/-- One host directory entry as returned by `readdir`. -/
structure Dirent where
  d_ino : Nat
  d_off : Int
  d_type : Nat
  d_name : String
deriving DecidableEq

/-- `is_dot_or_dotdot`: the name is exactly "." or "..". -/
def is_dot_or_dotdot (name : String) : Bool := name == "." || name == ".."

/-- One step of the host directory stream: an entry, or a `readdir`
failure with an errno.  The end of the stream is the end of the list. -/
inductive DirRead where
  | entry (e : Dirent)
  | rfail (e : Nat)

/-- A directory entry as committed to the reply buffer: plain entries carry
the synthesized stat, plus entries carry the looked-up entry param. -/
inductive DirentOut where
  | plain (e : Dirent) (st : Stat)
  | plus (e : Dirent) (ep : EntryParam)
deriving DecidableEq

/-- The entry param synthesized for "." and ".." in readdirplus: zero fuse
ino (no lookup, no reference) and the dirent-derived attr fields. -/
def dot_entry_param (E : Dirent) : EntryParam :=
  { ino := 0, attr := { st_ino := E.d_ino, st_dev := 0, st_mode := E.d_type <<< 12 },
    initial_version := 0, version_offset := 0 }

/-- The stat synthesized for a plain readdir entry. -/
def plain_entry_stat (E : Dirent) : Stat :=
  { st_ino := E.d_ino, st_dev := 0, st_mode := E.d_type <<< 12 }

/-- Transport behaviour consumed by the readdir loop: the per-entry lookup
environment, and the reply-buffer size `fuse_add_direntry(_plus)` computes
for an entry. -/
structure ReaddirEnv where
  lookupEnv : Dirent → LookupEnv
  entsizePlus : Dirent → EntryParam → Nat
  entsize : Dirent → Nat

/-- Result of the readdir loop: the first error (if any), the committed
entries, the remaining buffer space, and the successor state. -/
structure ReaddirRes where
  err : Option Nat
  committed : List DirentOut
  rem : Nat
  state : LoState

/-- The entry loop of `lo_do_readdir`: for each stream step, format an
entry (in plus mode via a full lookup, except for "." and ".." which are
synthesized); stop before committing an entry that does not fit, undoing
the lookup reference taken for it; stream errors stop the loop with the
entries collected so far. -/
def readdirLoop (env : ReaddirEnv) (vt : Nat → Int) (plus : Bool) :
    LoState → List DirRead → Nat → List DirentOut → ReaddirRes
  | s, [], rem, acc => ⟨none, acc, rem, s⟩
  | s, .rfail e :: _, rem, acc => ⟨some e, acc, rem, s⟩
  | s, .entry E :: rest, rem, acc =>
    if plus then
      if is_dot_or_dotdot E.d_name then
        let ep := dot_entry_param E
        let entsize := env.entsizePlus E ep
        if rem < entsize then ⟨none, acc, rem, s⟩
        else readdirLoop env vt plus s rest (rem - entsize) (acc ++ [.plus E ep])
      else
        match lo_do_lookup s vt (env.lookupEnv E) with
        | (.error e, s1) => ⟨some e, acc, rem, s1⟩
        | (.ok ep, s1) =>
          let entsize := env.entsizePlus E ep
          if rem < entsize then ⟨none, acc, rem, (unref_inode s1 (some ep.ino) 1).1⟩
          else readdirLoop env vt plus s1 rest (rem - entsize) (acc ++ [.plus E ep])
    else
      let entsize := env.entsize E
      if rem < entsize then ⟨none, acc, rem, s⟩
      else readdirLoop env vt plus s rest (rem - entsize)
        (acc ++ [.plain E (plain_entry_stat E)])

/-- A readdir reply: an error, or a buffer with the committed entries. -/
inductive Reply where
  | rerr (e : Nat)
  | buf (entries : List DirentOut)
deriving DecidableEq

/-- `lo_do_readdir`: allocate the reply buffer (ENOMEM on failure), run the
entry loop, and reply with the error only when the buffer is still empty
(`rem == size`), else with what was collected. -/
def lo_do_readdir (env : ReaddirEnv) (vt : Nat → Int) (plus : Bool)
    (s : LoState) (size : Nat) (stream : List DirRead) (allocOk : Bool) :
    Reply × LoState :=
  if ¬ allocOk then (.rerr ENOMEM, s)
  else
    let r := readdirLoop env vt plus s stream size []
    match r.err with
    | some e => if r.rem = size then (.rerr e, r.state) else (.buf r.committed, r.state)
    | none => (.buf r.committed, r.state)

/-- Sequences of table-mutating protocol operations: LOOKUP with its host
environment, and FORGET of a handle by a client-supplied amount. -/
inductive Op where
  | lookup (env : LookupEnv)
  | forget (ptr : Option Nat) (n : Nat)

/-- Apply one protocol operation to the state. -/
def runStep (vt : Nat → Int) (s : LoState) : Op → LoState
  | .lookup env => (lo_do_lookup s vt env).2
  | .forget ptr n => (unref_inode s ptr n).1

/-- Apply a sequence of protocol operations to the state. -/
def runOps (vt : Nat → Int) : LoState → List Op → LoState
  | s, [] => s
  | s, op :: ops => runOps vt (runStep vt s op) ops

/-- Well-formedness of the inode table: pairwise distinct keys and
identities, identities positive and below the allocator mark, refcounts
positive while in the table. -/
def Wf (s : LoState) : Prop :=
  List.Pairwise (fun a b => a.key ≠ b.key ∧ a.id ≠ b.id) s.inodes ∧
  (∀ i ∈ s.inodes, i.id < s.nextId ∧ 0 < i.id ∧ 0 < i.refcount) ∧
  0 < s.nextId

instance (s : LoState) : Decidable (Wf s) := by
  unfold Wf
  infer_instance

/-- The canonicality invariant: at most one table entry per `(dev,ino)`. -/
def AtMostOneKey (t : List LoInode) : Prop :=
  List.Pairwise (fun a b => a.key ≠ b.key) t

instance (t : List LoInode) : Decidable (AtMostOneKey t) := by
  unfold AtMostOneKey
  infer_instance

/-- The refcount held by the table for a given key (0 when absent). -/
def refcountOfKey (t : List LoInode) (k : LoKey) : Nat :=
  match tableFind t k with
  | some i => i.refcount
  | none => 0

lemma wf_atMostOneKey {s : LoState} (h : Wf s) : AtMostOneKey s.inodes :=
  h.1.imp (fun hab => hab.1)

lemma map_eq_self_of (t : List LoInode) (f : LoInode → LoInode)
    (h : ∀ i ∈ t, f i = i) : t.map f = t := by
  induction t with
  | nil => rfl
  | cons a t ih =>
    simp only [List.map_cons, List.cons.injEq]
    exact ⟨h a (by simp), ih (fun i hi => h i (by simp [hi]))⟩

lemma find?_map_pres (f : LoInode → LoInode) (p q : LoInode → Bool)
    (hp : ∀ i, q (f i) = p i) (t : List LoInode) :
    (t.map f).find? q = (t.find? p).map f := by
  induction t with
  | nil => rfl
  | cons a t ih =>
    simp only [List.map_cons, List.find?_cons, hp]
    cases p a <;> simp [ih]

lemma mem_id_unique {t : List LoInode}
    (hd : List.Pairwise (fun a b => a.id ≠ b.id) t)
    {i j : LoInode} (hi : i ∈ t) (hj : j ∈ t) (hij : i.id = j.id) : i = j := by
  induction t with
  | nil => cases hi
  | cons a t ih =>
    rcases List.mem_cons.mp hi with rfl | hi'
    · rcases List.mem_cons.mp hj with rfl | hj'
      · rfl
      · exact absurd hij ((List.pairwise_cons.mp hd).1 j hj')
    · rcases List.mem_cons.mp hj with rfl | hj'
      · exact absurd hij.symm ((List.pairwise_cons.mp hd).1 i hi')
      · exact ih (List.pairwise_cons.mp hd).2 hi' hj'

lemma find?_id_of_mem {t : List LoInode}
    (hd : List.Pairwise (fun a b => a.id ≠ b.id) t)
    {p : LoInode} (hm : p ∈ t) :
    t.find? (fun j => decide (j.id = p.id)) = some p := by
  induction t with
  | nil => cases hm
  | cons a t ih =>
    rcases List.mem_cons.mp hm with rfl | hm'
    · simp [List.find?_cons]
    · have hne : a.id ≠ p.id := (List.pairwise_cons.mp hd).1 p hm'
      simp only [List.find?_cons, decide_eq_false hne]
      exact ih (List.pairwise_cons.mp hd).2 hm'

lemma wf_id_pairwise {s : LoState} (h : Wf s) :
    List.Pairwise (fun a b => a.id ≠ b.id) s.inodes :=
  h.1.imp (fun hab => hab.2)

lemma wf_map_adjust (s : LoState) (h : Wf s) (f : LoInode → LoInode)
    (hkey : ∀ i, (f i).key = i.key) (hid : ∀ i, (f i).id = i.id)
    (hrc : ∀ i ∈ s.inodes, 0 < i.refcount → 0 < (f i).refcount) :
    Wf { s with inodes := s.inodes.map f } := by
  obtain ⟨hpw, hbound, hpos⟩ := h
  refine ⟨?_, ?_, hpos⟩
  · rw [List.pairwise_map]
    exact hpw.imp (fun hab => ⟨by rw [hkey, hkey]; exact hab.1, by rw [hid, hid]; exact hab.2⟩)
  · intro j hj
    obtain ⟨i, hi, rfl⟩ := List.mem_map.mp hj
    obtain ⟨h1, h2, h3⟩ := hbound i hi
    exact ⟨by rw [hid]; exact h1, by rw [hid]; exact h2, hrc i hi h3⟩

lemma wf_bump (s : LoState) (h : Wf s) (i0 : Nat) :
    Wf { s with inodes := bumpRef s.inodes i0 } := by
  refine wf_map_adjust s h _ ?_ ?_ ?_
  · intro i; by_cases hc : i.id = i0 <;> simp [hc]
  · intro i; by_cases hc : i.id = i0 <;> simp [hc]
  · intro i _ h3
    by_cases hc : i.id = i0
    · simp [hc]
    · simpa [hc] using h3

lemma wf_unref (s : LoState) (ptr : Option Nat) (n : Nat) (h : Wf s) :
    Wf (unref_inode s ptr n).1 := by
  cases ptr with
  | none => exact h
  | some i0 =>
    cases hf : tableFindId s.inodes i0 with
    | none => simpa [unref_inode, hf] using h
    | some ino =>
      have hmem : ino ∈ s.inodes := by
        have := List.mem_of_find?_eq_some hf
        exact this
      have hino : ino.id = i0 := by
        have := List.find?_some hf
        simpa using this
      by_cases hz : ino.refcount - n = 0
      · simp only [unref_inode, hf, hz, if_pos]
        obtain ⟨hpw, hbound, hpos⟩ := h
        refine ⟨hpw.sublist (List.filter_sublist _), ?_, hpos⟩
        intro j hj
        exact hbound j (List.mem_of_mem_filter hj)
      · simp only [unref_inode, hf, hz, if_neg, ite_false]
        refine wf_map_adjust s h _ ?_ ?_ ?_
        · intro i; by_cases hc : i.id = i0 <;> simp [hc]
        · intro i; by_cases hc : i.id = i0 <;> simp [hc]
        · intro i hi hpos
          by_cases hc : i.id = i0
          · have : i = ino := mem_id_unique (wf_id_pairwise h) hi hmem (by rw [hc, hino])
            subst this
            simp [hc]
            omega
          · simp [hc]
            exact hpos

lemma wf_insert (s : LoState) (h : Wf s) (newI : LoInode)
    (hkey : tableFind s.inodes newI.key = none)
    (hid : newI.id = s.nextId) (hrc : 0 < newI.refcount) :
    Wf { s with inodes := newI :: s.inodes, nextId := s.nextId + 1 } := by
  obtain ⟨hpw, hbound, hpos⟩ := h
  simp only [tableFind] at hkey
  refine ⟨List.pairwise_cons.mpr ⟨?_, hpw⟩, ?_, ?_⟩
  · intro j hj
    have hk := List.find?_eq_none.mp hkey j hj
    simp only [decide_eq_true_eq] at hk
    refine ⟨fun he => hk he.symm, ?_⟩
    have := (hbound j hj).1
    omega
  · intro j hj
    have hidj : j.id ≤ s.nextId ∧ 0 < j.id ∧ 0 < j.refcount := by
      rcases List.mem_cons.mp hj with rfl | hj'
      · exact ⟨by omega, by omega, hrc⟩
      · obtain ⟨h1, h2, h3⟩ := hbound j hj'
        exact ⟨by omega, h2, h3⟩
    refine ⟨?_, hidj.2.1, hidj.2.2⟩
    show j.id < s.nextId + 1
    omega
  · show 0 < s.nextId + 1
    omega

/-- The fresh inode allocated by `lo_do_lookup` for a table miss on stat
result `attr`, with `newfd` the O_PATH fd. -/
def newInode (s : LoState) (env : LookupEnv) (newfd : Nat) (attr : Stat) : LoInode :=
  { id := s.nextId, fd := newfd, is_symlink := S_ISLNK attr.st_mode,
    key := ⟨attr.st_ino, attr.st_dev⟩, refcount := 1,
    version_offset := env.sharedOffset, ireg_refid := env.sharedRefid }

lemma lo_do_lookup_found (s : LoState) (vt : Nat → Int) (env : LookupEnv)
    (fd : Nat) (attr attr2 : Stat) (p : LoInode)
    (h1 : env.openat = .ok fd) (h2 : env.fstatNew = .ok attr)
    (hfind : tableFind s.inodes ⟨attr.st_ino, attr.st_dev⟩ = some p)
    (h3 : env.fstatInode = .ok attr2) :
    lo_do_lookup s vt env =
      (.ok { ino := p.id, attr := attr2, initial_version := get_version vt p,
             version_offset := p.version_offset },
       { s with inodes := bumpRef s.inodes p.id }) := by
  simp [lo_do_lookup, lo_find, h1, h2, h3, hfind, get_version]

lemma lo_do_lookup_found_err (s : LoState) (vt : Nat → Int) (env : LookupEnv)
    (fd : Nat) (attr : Stat) (p : LoInode) (e : Nat)
    (h1 : env.openat = .ok fd) (h2 : env.fstatNew = .ok attr)
    (hfind : tableFind s.inodes ⟨attr.st_ino, attr.st_dev⟩ = some p)
    (h3 : env.fstatInode = .error e) :
    lo_do_lookup s vt env =
      (.error e,
       (unref_inode { s with inodes := bumpRef s.inodes p.id } (some p.id) 1).1) := by
  simp [lo_do_lookup, lo_find, h1, h2, h3, hfind]

lemma lo_do_lookup_new (s : LoState) (vt : Nat → Int) (env : LookupEnv)
    (fd : Nat) (attr attr2 : Stat)
    (h1 : env.openat = .ok fd) (h2 : env.fstatNew = .ok attr)
    (hfind : tableFind s.inodes ⟨attr.st_ino, attr.st_dev⟩ = none)
    (ha : env.allocOk = true) (h3 : env.fstatInode = .ok attr2) :
    lo_do_lookup s vt env =
      (.ok { ino := s.nextId, attr := attr2,
             initial_version := get_version vt (newInode s env fd attr),
             version_offset := env.sharedOffset },
       { s with inodes := newInode s env fd attr :: s.inodes,
                nextId := s.nextId + 1 }) := by
  simp [lo_do_lookup, lo_find, h1, h2, h3, hfind, ha, newInode]

lemma lo_do_lookup_new_err (s : LoState) (vt : Nat → Int) (env : LookupEnv)
    (fd : Nat) (attr : Stat) (e : Nat)
    (h1 : env.openat = .ok fd) (h2 : env.fstatNew = .ok attr)
    (hfind : tableFind s.inodes ⟨attr.st_ino, attr.st_dev⟩ = none)
    (ha : env.allocOk = true) (h3 : env.fstatInode = .error e) :
    lo_do_lookup s vt env =
      (.error e,
       (unref_inode
         { s with inodes := newInode s env fd attr :: s.inodes,
                  nextId := s.nextId + 1 } (some s.nextId) 1).1) := by
  simp [lo_do_lookup, lo_find, h1, h2, h3, hfind, ha, newInode]

lemma lo_do_lookup_state_cases (s : LoState) (vt : Nat → Int) (env : LookupEnv) :
    (lo_do_lookup s vt env).2 = s ∨
    (∃ p, tableFind s.inodes ⟨(env.fstatNew.toOption.getD ⟨0,0,0⟩).st_ino,
            (env.fstatNew.toOption.getD ⟨0,0,0⟩).st_dev⟩ = some p ∧
      ((lo_do_lookup s vt env).2 = { s with inodes := bumpRef s.inodes p.id } ∨
       (lo_do_lookup s vt env).2 =
         (unref_inode { s with inodes := bumpRef s.inodes p.id } (some p.id) 1).1)) ∨
    (∃ fd attr, env.openat = .ok fd ∧ env.fstatNew = .ok attr ∧
      tableFind s.inodes ⟨attr.st_ino, attr.st_dev⟩ = none ∧
      ((lo_do_lookup s vt env).2 =
         { s with inodes := newInode s env fd attr :: s.inodes,
                  nextId := s.nextId + 1 } ∨
       (lo_do_lookup s vt env).2 =
         (unref_inode
           { s with inodes := newInode s env fd attr :: s.inodes,
                    nextId := s.nextId + 1 } (some s.nextId) 1).1)) := by
  cases h1 : env.openat with
  | error e => left; simp [lo_do_lookup, h1]
  | ok fd =>
    cases h2 : env.fstatNew with
    | error e => left; simp [lo_do_lookup, h1, h2]
    | ok attr =>
      cases hfind : tableFind s.inodes ⟨attr.st_ino, attr.st_dev⟩ with
      | some p =>
        right; left
        refine ⟨p, by simpa [Except.toOption] using hfind, ?_⟩
        cases h3 : env.fstatInode with
        | error e => right; rw [lo_do_lookup_found_err s vt env fd attr p e h1 h2 hfind h3]
        | ok attr2 => left; rw [lo_do_lookup_found s vt env fd attr attr2 p h1 h2 hfind h3]
      | none =>
        cases ha : env.allocOk with
        | false => left; simp [lo_do_lookup, lo_find, h1, h2, hfind, ha]
        | true =>
          right; right
          refine ⟨fd, attr, rfl, rfl, hfind, ?_⟩
          cases h3 : env.fstatInode with
          | error e => right; rw [lo_do_lookup_new_err s vt env fd attr e h1 h2 hfind ha h3]
          | ok attr2 => left; rw [lo_do_lookup_new s vt env fd attr attr2 h1 h2 hfind ha h3]

lemma wf_lookup (s : LoState) (vt : Nat → Int) (env : LookupEnv) (h : Wf s) :
    Wf (lo_do_lookup s vt env).2 := by
  rcases lo_do_lookup_state_cases s vt env with heq | ⟨p, _, heq | heq⟩ |
      ⟨fd, attr, _, _, hfind, heq | heq⟩
  · rw [heq]; exact h
  · rw [heq]; exact wf_bump s h p.id
  · rw [heq]; exact wf_unref _ _ _ (wf_bump s h p.id)
  · rw [heq]
    exact wf_insert s h _ (by simpa [newInode] using hfind) rfl (by simp [newInode])
  · rw [heq]
    exact wf_unref _ _ _
      (wf_insert s h _ (by simpa [newInode] using hfind) rfl (by simp [newInode]))

lemma wf_runStep (vt : Nat → Int) (s : LoState) (op : Op) (h : Wf s) :
    Wf (runStep vt s op) := by
  cases op with
  | lookup env => exact wf_lookup s vt env h
  | forget ptr n => exact wf_unref s ptr n h

lemma wf_runOps (vt : Nat → Int) (s : LoState) (ops : List Op) (h : Wf s) :
    Wf (runOps vt s ops) := by
  induction ops generalizing s with
  | nil => exact h
  | cons op ops ih => exact ih _ (wf_runStep vt s op h)

lemma find?_filter_id_none (t : List LoInode) (i0 : Nat) :
    (t.filter (fun j => decide (j.id ≠ i0))).find? (fun j => decide (j.id = i0)) = none := by
  rw [List.find?_eq_none]
  intro x hx
  have hmem := List.of_mem_filter hx
  simp only [decide_eq_true_eq] at hmem ⊢
  exact hmem

lemma lookup_hit (s : LoState) (vt : Nat → Int) (env : LookupEnv)
    (attr : Stat) (p : LoInode) (ep : EntryParam) (s1 : LoState)
    (h2 : env.fstatNew = .ok attr)
    (hfind : tableFind s.inodes ⟨attr.st_ino, attr.st_dev⟩ = some p)
    (hres : lo_do_lookup s vt env = (.ok ep, s1)) :
    ep.ino = p.id ∧
    tableFind s1.inodes ⟨attr.st_ino, attr.st_dev⟩
      = some { p with refcount := p.refcount + 1 } ∧
    s1.inodes.length = s.inodes.length := by
  cases h1 : env.openat with
  | error e =>
    rw [show lo_do_lookup s vt env = (.error e, s) from by simp [lo_do_lookup, h1]] at hres
    simp at hres
  | ok fd =>
    cases h3 : env.fstatInode with
    | error e =>
      rw [lo_do_lookup_found_err s vt env fd attr p e h1 h2 hfind h3] at hres
      simp at hres
    | ok attr2 =>
      rw [lo_do_lookup_found s vt env fd attr attr2 p h1 h2 hfind h3] at hres
      simp only [Prod.mk.injEq] at hres
      obtain ⟨ha, hb⟩ := hres
      have ha' := Except.ok.inj ha
      refine ⟨by rw [← ha'], ?_, by rw [← hb]; simp [bumpRef]⟩
      rw [← hb]
      show tableFind (bumpRef s.inodes p.id) _ = _
      unfold tableFind bumpRef
      rw [find?_map_pres _ (fun i => decide (i.key = ⟨attr.st_ino, attr.st_dev⟩)) _ ?_]
      · rw [show s.inodes.find? (fun i => decide (i.key = ⟨attr.st_ino, attr.st_dev⟩))
              = some p from hfind]
        simp
      · intro i
        by_cases hc : i.id = p.id <;> simp [hc]

/-- C1.  Canonicality of the inode table: any sequence of lookups and
forgets preserves at-most-one-inode-per-(dev,ino), and a lookup whose stat
returns a key already in the table returns that very inode with its
refcount incremented, inserting nothing. -/
theorem c1_table_canonical (vt : Nat → Int) (s0 : LoState) (h : Wf s0) :
    (∀ ops : List Op, AtMostOneKey (runOps vt s0 ops).inodes) ∧
    (∀ ops : List Op, ∀ env : LookupEnv, ∀ attr : Stat, ∀ p : LoInode,
      ∀ ep : EntryParam, ∀ s1 : LoState,
      env.fstatNew = Except.ok attr →
      tableFind (runOps vt s0 ops).inodes ⟨attr.st_ino, attr.st_dev⟩ = some p →
      lo_do_lookup (runOps vt s0 ops) vt env = (Except.ok ep, s1) →
      ep.ino = p.id ∧
      tableFind s1.inodes ⟨attr.st_ino, attr.st_dev⟩
        = some { p with refcount := p.refcount + 1 } ∧
      s1.inodes.length = (runOps vt s0 ops).inodes.length) := by
  constructor
  · intro ops
    exact wf_atMostOneKey (wf_runOps vt s0 ops h)
  · intro ops env attr p ep s1 h2 hfind hres
    exact lookup_hit (runOps vt s0 ops) vt env attr p ep s1 h2 hfind hres

theorem c1_witness :
    Wf (⟨[⟨5, 7, false, ⟨10, 3⟩, 1, 0, 0⟩], 6, 2⟩ : LoState) ∧
    ((⟨5, ⟨10, 3, 0x8000⟩, 0, 0⟩ : EntryParam).ino = (⟨5, 7, false, ⟨10, 3⟩, 1, 0, 0⟩ : LoInode).id ∧
     tableFind (⟨[⟨5, 7, false, ⟨10, 3⟩, 2, 0, 0⟩], 6, 2⟩ : LoState).inodes
         ⟨(⟨10, 3, 0x8000⟩ : Stat).st_ino, (⟨10, 3, 0x8000⟩ : Stat).st_dev⟩
       = some { (⟨5, 7, false, ⟨10, 3⟩, 1, 0, 0⟩ : LoInode) with refcount :=
           (⟨5, 7, false, ⟨10, 3⟩, 1, 0, 0⟩ : LoInode).refcount + 1 } ∧
     (⟨[⟨5, 7, false, ⟨10, 3⟩, 2, 0, 0⟩], 6, 2⟩ : LoState).inodes.length
       = (runOps (fun _ => 0) ⟨[⟨5, 7, false, ⟨10, 3⟩, 1, 0, 0⟩], 6, 2⟩ []).inodes.length) :=
  ⟨by decide,
   (c1_table_canonical (fun _ => 0) ⟨[⟨5, 7, false, ⟨10, 3⟩, 1, 0, 0⟩], 6, 2⟩ (by decide)).2
     [] ⟨.ok 9, .ok ⟨10, 3, 0x8000⟩, true, 0, 0, .ok ⟨10, 3, 0x8000⟩⟩
     ⟨10, 3, 0x8000⟩ ⟨5, 7, false, ⟨10, 3⟩, 1, 0, 0⟩
     ⟨5, ⟨10, 3, 0x8000⟩, 0, 0⟩ ⟨[⟨5, 7, false, ⟨10, 3⟩, 2, 0, 0⟩], 6, 2⟩
     rfl rfl rfl⟩

/-- C5.  `unref_inode` decrements the refcount by exactly `n` under the
asserted precondition `refcount ≥ n`; at zero the inode leaves the table
with its fd closed and its registry slot released, otherwise it stays with
every other field unchanged. -/
theorem c5_unref_exact (s : LoState) (i : LoInode) (n : Nat)
    (hmem : tableFindId s.inodes i.id = some i)
    (_hn : n ≤ i.refcount) :
    (i.refcount = n →
       (unref_inode s (some i.id) n).1.inodes
         = s.inodes.filter (fun j => decide (j.id ≠ i.id)) ∧
       tableFindId (unref_inode s (some i.id) n).1.inodes i.id = none ∧
       (unref_inode s (some i.id) n).2 = ⟨some i.fd, some i.ireg_refid⟩) ∧
    (n < i.refcount →
       (unref_inode s (some i.id) n).1.inodes
         = s.inodes.map (fun j => if j.id = i.id then { j with refcount := j.refcount - n } else j) ∧
       tableFindId (unref_inode s (some i.id) n).1.inodes i.id
         = some { i with refcount := i.refcount - n } ∧
       (unref_inode s (some i.id) n).2 = ⟨none, none⟩) := by
  constructor
  · intro hz
    have hz' : i.refcount - n = 0 := by omega
    refine ⟨?_, ?_, ?_⟩
    · simp [unref_inode, hmem, hz']
    · simp only [unref_inode, hmem, hz', if_pos]
      exact find?_filter_id_none s.inodes i.id
    · simp [unref_inode, hmem, hz']
  · intro hlt
    have hz' : ¬ (i.refcount - n = 0) := by omega
    refine ⟨?_, ?_, ?_⟩
    · simp [unref_inode, hmem, hz']
    · simp only [unref_inode, hmem, hz', ite_false, if_neg]
      show tableFindId (s.inodes.map _) i.id = _
      unfold tableFindId
      rw [find?_map_pres _ (fun j => decide (j.id = i.id)) _ ?_]
      · rw [show s.inodes.find? (fun j => decide (j.id = i.id)) = some i from hmem]
        simp
      · intro j
        by_cases hc : j.id = i.id <;> simp [hc]
    · simp [unref_inode, hmem, hz']

theorem c5_witness :
    tableFindId (⟨[⟨5, 7, false, ⟨10, 3⟩, 2, 0, 0⟩], 6, 2⟩ : LoState).inodes
        (⟨5, 7, false, ⟨10, 3⟩, 2, 0, 0⟩ : LoInode).id
      = some (⟨5, 7, false, ⟨10, 3⟩, 2, 0, 0⟩ : LoInode) ∧
    tableFindId (unref_inode ⟨[⟨5, 7, false, ⟨10, 3⟩, 2, 0, 0⟩], 6, 2⟩
        (some (⟨5, 7, false, ⟨10, 3⟩, 2, 0, 0⟩ : LoInode).id) 1).1.inodes
        (⟨5, 7, false, ⟨10, 3⟩, 2, 0, 0⟩ : LoInode).id
      = some { (⟨5, 7, false, ⟨10, 3⟩, 2, 0, 0⟩ : LoInode) with refcount :=
          (⟨5, 7, false, ⟨10, 3⟩, 2, 0, 0⟩ : LoInode).refcount - 1 } :=
  ⟨by decide,
   ((c5_unref_exact ⟨[⟨5, 7, false, ⟨10, 3⟩, 2, 0, 0⟩], 6, 2⟩
       ⟨5, 7, false, ⟨10, 3⟩, 2, 0, 0⟩ 1 (by decide) (by decide)).2 (by decide)).2.1⟩

/-- C9.  `lo_readlink` replies ENAMETOOLONG exactly when the host readlink
fills the whole `PATH_MAX + 1` buffer, propagates a readlink failure's
errno, and otherwise replies the NUL-terminated target. -/
theorem c9_readlink_policy (e : Nat) (cs : List Char) :
    lo_readlink (Except.error e) = ReadlinkReply.rerr e ∧
    (PATH_MAX + 1 ≤ cs.length →
      lo_readlink (Except.ok cs) = ReadlinkReply.rerr ENAMETOOLONG) ∧
    (cs.length ≤ PATH_MAX →
      lo_readlink (Except.ok cs) = ReadlinkReply.target cs) := by
  refine ⟨rfl, ?_, ?_⟩
  · intro hlong
    have : min cs.length (PATH_MAX + 1) = PATH_MAX + 1 := by omega
    simp [lo_readlink, this]
  · intro hfit
    have hmin : min cs.length (PATH_MAX + 1) = cs.length := by omega
    have hne : ¬ (cs.length = PATH_MAX + 1) := by omega
    simp [lo_readlink, hmin, hne]

theorem c9_witness :
    (['a', 'b'] : List Char).length ≤ PATH_MAX ∧
    lo_readlink (Except.ok ['a', 'b']) = ReadlinkReply.target ['a', 'b'] :=
  ⟨by decide,
   (c9_readlink_policy 0 ['a', 'b']).2.2 (by decide)⟩

/-- C10.  When the stat of the named child succeeds but its key is not in
the inode table, both `lo_unlink` and `lo_rmdir` reply EIO without invoking
the host `unlinkat`, leaving state, version table and host object
untouched. -/
theorem c10_unlink_rmdir_require_table (s : LoState) (vt : Nat → Int)
    (dir : LoInode) (st : Stat) (e1 e2 : UnlinkEnv)
    (h1 : e1.statRes = some st) (h2 : e2.statRes = some st)
    (hnot : tableFind s.inodes ⟨st.st_ino, st.st_dev⟩ = none) :
    lo_unlink s vt dir e1 = ⟨ EIO, s, vt, false⟩ ∧
    lo_rmdir s vt dir e2 = ⟨ EIO, s, vt, false⟩ := by
  constructor
  · simp [lo_unlink, lookup_name, lo_find, h1, hnot]
  · simp [lo_rmdir, lookup_name, lo_find, h2, hnot]

theorem c10_witness :
    tableFind (⟨[], 1, 2⟩ : LoState).inodes
        ⟨(⟨10, 3, 0x8000⟩ : Stat).st_ino, (⟨10, 3, 0x8000⟩ : Stat).st_dev⟩ = none ∧
    (lo_unlink ⟨[], 1, 2⟩ (fun _ => 0) ⟨2, 3, false, ⟨1, 1⟩, 2, 0, 0⟩
        ⟨some ⟨10, 3, 0x8000⟩, none⟩).calledUnlinkat = false :=
  ⟨by decide,
   by rw [(c10_unlink_rmdir_require_table ⟨[], 1, 2⟩ (fun _ => 0)
       ⟨2, 3, false, ⟨1, 1⟩, 2, 0, 0⟩ ⟨10, 3, 0x8000⟩
       ⟨some ⟨10, 3, 0x8000⟩, none⟩ ⟨some ⟨10, 3, 0x8000⟩, none⟩
       rfl rfl rfl).1]⟩

lemma update_version_mono (vt : Nat → Int) (i : LoInode) (x : Nat) :
    vt x ≤ update_version vt i x := by
  unfold update_version
  by_cases h : i.version_offset = 0
  · simp [h]
  · simp only [h, ite_false, if_neg]
    by_cases hx : x = i.version_offset
    · simp only [hx, ite_true, if_pos]
      omega
    · simp [hx]

lemma update_version_bump (vt : Nat → Int) (i : LoInode)
    (h : i.version_offset ≠ 0) :
    vt i.version_offset + 1 ≤ update_version vt i i.version_offset := by
  simp [update_version, h]

lemma lo_rename_success (s : LoState) (vt : Nat → Int) (dirOld dirNew oi : LoInode)
    (newi : Option LoInode) (s1 s2 : LoState) (env : RenameEnv)
    (hfl : env.flags = 0) (hok : env.renameatErr = none)
    (hold : lookup_name s env.statOld = (some oi, s1))
    (hnew : lookup_name s1 env.statNew = (newi, s2)) :
    lo_rename s vt dirOld dirNew env =
      ⟨0,
       update_version (update_version
         (match newi with
          | some ni => update_version (update_version vt oi) ni
          | none => update_version vt oi) dirOld) dirNew,
       (unref_inode (unref_inode s2 (some oi.id) 1).1 (newi.map LoInode.id) 1).1⟩ := by
  cases newi with
  | none => simp [lo_rename, hold, hnew, hfl, hok]
  | some ni => simp [lo_rename, hold, hnew, hfl, hok]

/-- C2 (amended).  A successful plain (flags = 0) rename increments the
version counters of the source inode, the target inode when present, and
both parent directories, by at least 1 each (for slots with
`version_offset ≠ 0`); with nonzero flags no counter is touched. -/
theorem c2_rename_version_bumps (s : LoState) (vt : Nat → Int)
    (dirOld dirNew oi : LoInode) (newi : Option LoInode) (s1 s2 : LoState)
    (env : RenameEnv)
    (hfl : env.flags = 0)
    (hok : env.renameatErr = none)
    (hold : lookup_name s env.statOld = (some oi, s1))
    (hnew : lookup_name s1 env.statNew = (newi, s2)) :
    (lo_rename s vt dirOld dirNew env).reply = 0 ∧
    (oi.version_offset ≠ 0 →
      vt oi.version_offset + 1 ≤ (lo_rename s vt dirOld dirNew env).vt oi.version_offset) ∧
    (∀ ni, newi = some ni → ni.version_offset ≠ 0 →
      vt ni.version_offset + 1 ≤ (lo_rename s vt dirOld dirNew env).vt ni.version_offset) ∧
    (dirOld.version_offset ≠ 0 →
      vt dirOld.version_offset + 1 ≤ (lo_rename s vt dirOld dirNew env).vt dirOld.version_offset) ∧
    (dirNew.version_offset ≠ 0 →
      vt dirNew.version_offset + 1 ≤ (lo_rename s vt dirOld dirNew env).vt dirNew.version_offset) := by
  rw [lo_rename_success s vt dirOld dirNew oi newi s1 s2 env hfl hok hold hnew]
  refine ⟨rfl, ?_, ?_, ?_, ?_⟩
  · intro hvo
    have h1 := update_version_bump vt oi hvo
    cases newi with
    | none =>
      have h2 := update_version_mono (update_version vt oi) dirOld oi.version_offset
      have h3 := update_version_mono (update_version (update_version vt oi) dirOld)
        dirNew oi.version_offset
      simp only []
      omega
    | some ni =>
      have h2 := update_version_mono (update_version vt oi) ni oi.version_offset
      have h3 := update_version_mono (update_version (update_version vt oi) ni)
        dirOld oi.version_offset
      have h4 := update_version_mono
        (update_version (update_version (update_version vt oi) ni) dirOld)
        dirNew oi.version_offset
      simp only []
      omega
  · intro ni hni hvo
    subst hni
    have h1 := update_version_mono vt oi ni.version_offset
    have h2 := update_version_bump (update_version vt oi) ni hvo
    have h3 := update_version_mono (update_version (update_version vt oi) ni)
      dirOld ni.version_offset
    have h4 := update_version_mono
      (update_version (update_version (update_version vt oi) ni) dirOld)
      dirNew ni.version_offset
    simp only []
    omega
  · intro hvo
    cases newi with
    | none =>
      have h1 := update_version_mono vt oi dirOld.version_offset
      have h2 := update_version_bump (update_version vt oi) dirOld hvo
      have h3 := update_version_mono (update_version (update_version vt oi) dirOld)
        dirNew dirOld.version_offset
      simp only []
      omega
    | some ni =>
      have h1 := update_version_mono vt oi dirOld.version_offset
      have h1b := update_version_mono (update_version vt oi) ni dirOld.version_offset
      have h2 := update_version_bump (update_version (update_version vt oi) ni) dirOld hvo
      have h3 := update_version_mono
        (update_version (update_version (update_version vt oi) ni) dirOld)
        dirNew dirOld.version_offset
      simp only []
      omega
  · intro hvo
    cases newi with
    | none =>
      have h1 := update_version_mono vt oi dirNew.version_offset
      have h2 := update_version_mono (update_version vt oi) dirOld dirNew.version_offset
      have h3 := update_version_bump (update_version (update_version vt oi) dirOld)
        dirNew hvo
      simp only []
      omega
    | some ni =>
      have h1 := update_version_mono vt oi dirNew.version_offset
      have h1b := update_version_mono (update_version vt oi) ni dirNew.version_offset
      have h2 := update_version_mono
        (update_version (update_version vt oi) ni) dirOld dirNew.version_offset
      have h3 := update_version_bump
        (update_version (update_version (update_version vt oi) ni) dirOld) dirNew hvo
      simp only []
      omega

/-- C2 counterexample.  A rename with nonzero flags that succeeds on the
host (reply 0) while the source inode has the live version slot 1, yet the
slot is not incremented: with nonzero flags `lo_rename` replies without
calling `update_version` at all. -/
theorem c2_counterexample :
    (lo_rename ⟨[⟨5, 7, false, ⟨10, 3⟩, 1, 1, 0⟩], 6, 2⟩ (fun _ => 0)
        ⟨2, 3, false, ⟨1, 1⟩, 2, 2, 0⟩ ⟨2, 3, false, ⟨1, 1⟩, 2, 2, 0⟩
        ⟨some ⟨10, 3, 0x8000⟩, none, 1, true, none, none⟩).reply = 0 ∧
    (⟨5, 7, false, ⟨10, 3⟩, 1, 1, 0⟩ : LoInode).version_offset ≠ 0 ∧
    tableFind (⟨[⟨5, 7, false, ⟨10, 3⟩, 1, 1, 0⟩], 6, 2⟩ : LoState).inodes ⟨10, 3⟩
      = some ⟨5, 7, false, ⟨10, 3⟩, 1, 1, 0⟩ ∧
    (lo_rename ⟨[⟨5, 7, false, ⟨10, 3⟩, 1, 1, 0⟩], 6, 2⟩ (fun _ => 0)
        ⟨2, 3, false, ⟨1, 1⟩, 2, 2, 0⟩ ⟨2, 3, false, ⟨1, 1⟩, 2, 2, 0⟩
        ⟨some ⟨10, 3, 0x8000⟩, none, 1, true, none, none⟩).vt 1 = 0 := by
  refine ⟨rfl, by decide, rfl, rfl⟩

theorem c2_witness :
    (lo_rename ⟨[⟨5, 7, false, ⟨10, 3⟩, 1, 1, 0⟩], 6, 2⟩ (fun _ => 0)
        ⟨2, 3, false, ⟨1, 1⟩, 2, 2, 0⟩ ⟨3, 4, false, ⟨1, 2⟩, 2, 3, 0⟩
        ⟨some ⟨10, 3, 0x8000⟩, none, 0, true, none, none⟩).reply = 0 ∧
    (fun _ => (0 : Int)) 1 + 1 ≤
      (lo_rename ⟨[⟨5, 7, false, ⟨10, 3⟩, 1, 1, 0⟩], 6, 2⟩ (fun _ => 0)
        ⟨2, 3, false, ⟨1, 1⟩, 2, 2, 0⟩ ⟨3, 4, false, ⟨1, 2⟩, 2, 3, 0⟩
        ⟨some ⟨10, 3, 0x8000⟩, none, 0, true, none, none⟩).vt 1 := by
  have h := c2_rename_version_bumps ⟨[⟨5, 7, false, ⟨10, 3⟩, 1, 1, 0⟩], 6, 2⟩
    (fun _ => 0) ⟨2, 3, false, ⟨1, 1⟩, 2, 2, 0⟩ ⟨3, 4, false, ⟨1, 2⟩, 2, 3, 0⟩
    ⟨5, 7, false, ⟨10, 3⟩, 2, 1, 0⟩ none
    ⟨[⟨5, 7, false, ⟨10, 3⟩, 2, 1, 0⟩], 6, 2⟩ ⟨[⟨5, 7, false, ⟨10, 3⟩, 2, 1, 0⟩], 6, 2⟩
    ⟨some ⟨10, 3, 0x8000⟩, none, 0, true, none, none⟩ rfl rfl rfl rfl
  exact ⟨h.1, h.2.1 (by decide)⟩

/-- C6.  The credential shim is atomic on failure: any error return of
`lo_change_cred` leaves the credentials as before (in particular a failed
euid switch first rolls the egid back, as the issued syscall trace shows),
and `lo_restore_cred` aborts the process when either restore fails. -/
theorem c6_cred_shim (c ctx old : Creds) (env : CredEnv) (envr : RestoreEnv)
    (hrb : env.rollbackOk = true) :
    ((lo_change_cred c ctx env).res ≠ 0 → (lo_change_cred c ctx env).creds = c) ∧
    (env.setgidOk = true → env.setuidOk = false →
      (lo_change_cred c ctx env).calls
        = [SysCall.setresgid ctx.egid, SysCall.setresuid ctx.euid,
           SysCall.setresgid c.egid] ∧
      (lo_change_cred c ctx env).res = env.setuidErrno ∧
      (lo_change_cred c ctx env).creds = c) ∧
    ((envr.restoreUidOk = false ∨ envr.restoreGidOk = false) →
      lo_restore_cred c old envr = RestoreOut.fatal) := by
  refine ⟨?_, ?_, ?_⟩
  · intro hres
    by_cases hgid : env.setgidOk
    · by_cases huid : env.setuidOk
      · exfalso
        apply hres
        simp [lo_change_cred, hgid, huid]
      · simp [lo_change_cred, hgid, huid, hrb]
    · simp [lo_change_cred, hgid]
  · intro hgid huid
    refine ⟨?_, ?_, ?_⟩ <;> simp [lo_change_cred, hgid, huid, hrb]
  · intro hdisj
    rcases hdisj with hf | hf
    · simp [lo_restore_cred, hf]
    · by_cases hu2 : envr.restoreUidOk <;> simp [lo_restore_cred, hu2, hf]

theorem c6_witness :
    (lo_change_cred ⟨0, 0⟩ ⟨100, 100⟩ ⟨true, 1, false, 1, true⟩).creds = ⟨0, 0⟩ ∧
    (lo_change_cred ⟨0, 0⟩ ⟨100, 100⟩ ⟨true, 1, false, 1, true⟩).res = 1 ∧
    lo_restore_cred ⟨0, 0⟩ ⟨0, 0⟩ ⟨false, true⟩ = RestoreOut.fatal := by
  have h := c6_cred_shim ⟨0, 0⟩ ⟨100, 100⟩ ⟨0, 0⟩ ⟨true, 1, false, 1, true⟩
    ⟨false, true⟩ rfl
  exact ⟨(h.2.1 rfl rfl).2.2, (h.2.1 rfl rfl).2.1, h.2.2 (Or.inl rfl)⟩

lemma pnLoop_attempts_le (att : Nat → PnEnvStep) (key : LoKey) :
    ∀ (r : Nat) (s : LoState) (k : Nat),
      pnAttempts (pnLoop att key s r k) ≤ k + r + 1 := by
  intro r
  induction r with
  | zero =>
    intro s k
    cases hstep : pn_step key s (att k) <;>
      simp only [pnLoop, hstep, pnAttempts] <;> omega
  | succ r ih =>
    intro s k
    cases hstep : pn_step key s (att k) with
    | pok p s1 =>
      simp only [pnLoop, hstep, pnAttempts]
      omega
    | noretry s1 =>
      simp only [pnLoop, hstep, pnAttempts]
      omega
    | retryable s1 =>
      simp only [pnLoop, hstep]
      have := ih s1 (k + 1)
      omega

lemma pnLoop_fail_eio (att : Nat → PnEnvStep) (key : LoKey) :
    ∀ (r : Nat) (s : LoState) (k : Nat) (e : Nat) (s1 : LoState) (a : Nat),
      pnLoop att key s r k = .pfail e s1 a → e = EIO := by
  intro r
  induction r with
  | zero =>
    intro s k e s1 a h
    cases hstep : pn_step key s (att k) with
    | pok p s2 => simp [pnLoop, hstep] at h
    | noretry s2 =>
      simp only [pnLoop, hstep, PnRes.pfail.injEq] at h
      exact h.1.symm
    | retryable s2 =>
      simp only [pnLoop, hstep, PnRes.pfail.injEq] at h
      exact h.1.symm
  | succ r ih =>
    intro s k e s1 a h
    cases hstep : pn_step key s (att k) with
    | pok p s2 => simp [pnLoop, hstep] at h
    | noretry s2 =>
      simp only [pnLoop, hstep, PnRes.pfail.injEq] at h
      exact h.1.symm
    | retryable s2 =>
      simp only [pnLoop, hstep] at h
      exact ih s2 (k + 1) e s1 a h

/-- C7.  Failure policy of the path resolver: readlink failure, overflow
and slash-free paths fail at once with EIO; a missing parent stat, a
parent absent from the table, and a leaf key mismatch are retryable; a
retryable failure consumes one retry and with the budget exhausted the
resolver returns EIO; every failure carries errno EIO and at most three
attempts (two retries) are ever made. -/
theorem c7_resolver_policy (att : Nat → PnEnvStep) (key : LoKey) :
    (∀ (s : LoState) (k r : Nat), att k = .rlFail →
      pnLoop att key s r k = .pfail EIO s (k + 1)) ∧
    (∀ (s : LoState) (k r : Nat), att k = .rlOverflow →
      pnLoop att key s r k = .pfail EIO s (k + 1)) ∧
    (∀ (s : LoState) (k r : Nat), att k = .rlNoSlash →
      pnLoop att key s r k = .pfail EIO s (k + 1)) ∧
    (∀ (s : LoState) (k : Nat) (ls : Option Stat), att k = .subdir none ls →
      pn_step key s (att k) = .retryable s) ∧
    (∀ (s : LoState) (k : Nat) (pst : Stat) (ls : Option Stat),
      att k = .subdir (some pst) ls →
      tableFind s.inodes ⟨pst.st_ino, pst.st_dev⟩ = none →
      pn_step key s (att k) = .retryable s) ∧
    (∀ (s : LoState) (k : Nat) (pst lst : Stat) (p : LoInode),
      att k = .subdir (some pst) (some lst) →
      tableFind s.inodes ⟨pst.st_ino, pst.st_dev⟩ = some p →
      ¬ (lst.st_dev = key.dev ∧ lst.st_ino = key.ino) →
      pn_step key s (att k)
        = .retryable (unref_inode { s with inodes := bumpRef s.inodes p.id }
            (some p.id) 1).1) ∧
    (∀ (s s1 : LoState) (k r : Nat), pn_step key s (att k) = .retryable s1 →
      pnLoop att key s (r + 1) k = pnLoop att key s1 r (k + 1)) ∧
    (∀ (s s1 : LoState) (k : Nat), pn_step key s (att k) = .retryable s1 →
      pnLoop att key s 0 k = .pfail EIO s1 (k + 1)) ∧
    (∀ (s s1 s2 s3 : LoState),
      pn_step key s (att 0) = .retryable s1 →
      pn_step key s1 (att 1) = .retryable s2 →
      pn_step key s2 (att 2) = .retryable s3 →
      lo_parent_and_name att key s = .pfail EIO s3 3) ∧
    (∀ (s : LoState), pnAttempts (lo_parent_and_name att key s) ≤ 3) ∧
    (∀ (s : LoState) (e : Nat) (s1 : LoState) (a : Nat),
      lo_parent_and_name att key s = .pfail e s1 a → e = EIO) := by
  have hstepEq : ∀ (s s1 : LoState) (k r : Nat),
      pn_step key s (att k) = .retryable s1 →
      pnLoop att key s (r + 1) k = pnLoop att key s1 r (k + 1) := by
    intro s s1 k r hstep
    simp only [pnLoop, hstep]
  have hstep0 : ∀ (s s1 : LoState) (k : Nat),
      pn_step key s (att k) = .retryable s1 →
      pnLoop att key s 0 k = .pfail EIO s1 (k + 1) := by
    intro s s1 k hstep
    simp only [pnLoop, hstep]
  have himm : ∀ (s : LoState) (k r : Nat),
      pn_step key s (att k) = .noretry s →
      pnLoop att key s r k = .pfail EIO s (k + 1) := by
    intro s k r hst
    cases r with
    | zero => simp only [pnLoop, hst]
    | succ r => simp only [pnLoop, hst]
  refine ⟨?_, ?_, ?_, ?_, ?_, ?_, hstepEq, hstep0, ?_, ?_, ?_⟩
  · intro s k r hk
    exact himm s k r (by rw [hk]; rfl)
  · intro s k r hk
    exact himm s k r (by rw [hk]; rfl)
  · intro s k r hk
    exact himm s k r (by rw [hk]; rfl)
  · intro s k ls hk
    rw [hk]
    rfl
  · intro s k pst ls hk hnone
    rw [hk]
    cases ls <;> simp [pn_step, lo_find, hnone]
  · intro s k pst lst p hk hfind hne
    rw [hk]
    simp [pn_step, lo_find, hfind, hne]
  · intro s s1 s2 s3 h0 h1 h2
    calc lo_parent_and_name att key s
        = pnLoop att key s 2 0 := rfl
      _ = pnLoop att key s1 1 1 := hstepEq s s1 0 1 h0
      _ = pnLoop att key s2 0 2 := hstepEq s1 s2 1 0 h1
      _ = .pfail EIO s3 3 := hstep0 s2 s3 2 h2
  · intro s
    exact pnLoop_attempts_le att key 2 s 0
  · intro s e s1 a h
    exact pnLoop_fail_eio att key 2 s 0 e s1 a h

theorem c7_witness :
    ((fun _ => PnEnvStep.rlFail) 0 = PnEnvStep.rlFail) ∧
    lo_parent_and_name (fun _ => PnEnvStep.rlFail) ⟨10, 3⟩ ⟨[], 1, 2⟩
      = PnRes.pfail EIO ⟨[], 1, 2⟩ 1 :=
  ⟨rfl,
   (c7_resolver_policy (fun _ => PnEnvStep.rlFail) ⟨10, 3⟩).1 ⟨[], 1, 2⟩ 0 2 rfl⟩

lemma bump_unref_cancel (s : LoState) (h : Wf s) (p : LoInode)
    (hmem : p ∈ s.inodes) :
    (unref_inode { s with inodes := bumpRef s.inodes p.id } (some p.id) 1).1.inodes
      = s.inodes := by
  have hpw := wf_id_pairwise h
  have hfindp : s.inodes.find? (fun j => decide (j.id = p.id)) = some p :=
    find?_id_of_mem hpw hmem
  have hfind_b : tableFindId (bumpRef s.inodes p.id) p.id
      = some { p with refcount := p.refcount + 1 } := by
    unfold tableFindId bumpRef
    rw [find?_map_pres _ (fun j => decide (j.id = p.id)) _ ?_]
    · rw [hfindp]
      simp
    · intro i
      by_cases hc : i.id = p.id <;> simp [hc]
  have hrc : 0 < p.refcount := (h.2.1 p hmem).2.2
  have hcond : ¬ (({ p with refcount := p.refcount + 1 } : LoInode).refcount - 1 = 0) := by
    simp
    omega
  show (unref_inode { s with inodes := bumpRef s.inodes p.id } (some p.id) 1).1.inodes = _
  simp only [unref_inode, show tableFindId ({ s with inodes := bumpRef s.inodes p.id } : LoState).inodes p.id = some { p with refcount := p.refcount + 1 } from hfind_b, hcond, ite_false, if_neg]
  show (bumpRef s.inodes p.id).map _ = s.inodes
  unfold bumpRef
  rw [List.map_map]
  apply map_eq_self_of
  intro i hi
  by_cases hc : i.id = p.id
  · simp only [Function.comp_apply, hc, ite_true, if_pos, Nat.add_sub_cancel]
    rw [← hc]
  · simp [Function.comp, hc]

lemma insert_unref_cancel (s : LoState) (h : Wf s) (newI : LoInode)
    (hid : newI.id = s.nextId) (hrc : newI.refcount = 1) :
    (unref_inode { s with inodes := newI :: s.inodes, nextId := s.nextId + 1 }
        (some newI.id) 1).1.inodes = s.inodes := by
  have hfind : tableFindId (newI :: s.inodes) newI.id = some newI := by
    unfold tableFindId
    simp [List.find?_cons]
  have hcond : newI.refcount - 1 = 0 := by omega
  simp only [unref_inode, show tableFindId ({ s with inodes := newI :: s.inodes, nextId := s.nextId + 1 } : LoState).inodes newI.id = some newI from hfind, hcond, if_pos]
  show List.filter _ (newI :: s.inodes) = s.inodes
  rw [List.filter_cons]
  have hself : (decide (newI.id ≠ newI.id)) = false := by simp
  rw [hself]
  simp only [Bool.false_eq_true, if_neg, ite_false]
  rw [List.filter_eq_self]
  intro a ha
  have := (h.2.1 a ha).1
  simp only [decide_eq_true_eq]
  omega

lemma lookup_then_unref (s s1 : LoState) (vt : Nat → Int) (le : LookupEnv)
    (ep : EntryParam) (h : Wf s)
    (hlk : lo_do_lookup s vt le = (Except.ok ep, s1)) :
    (unref_inode s1 (some ep.ino) 1).1.inodes = s.inodes := by
  cases h1 : le.openat with
  | error e =>
    rw [show lo_do_lookup s vt le = (.error e, s) from by simp [lo_do_lookup, h1]] at hlk
    simp at hlk
  | ok fd =>
    cases h2 : le.fstatNew with
    | error e =>
      rw [show lo_do_lookup s vt le = (.error e, s) from by
        simp [lo_do_lookup, h1, h2]] at hlk
      simp at hlk
    | ok attr =>
      cases hfind : tableFind s.inodes ⟨attr.st_ino, attr.st_dev⟩ with
      | some p =>
        cases h3 : le.fstatInode with
        | error e =>
          rw [lo_do_lookup_found_err s vt le fd attr p e h1 h2 hfind h3] at hlk
          simp at hlk
        | ok attr2 =>
          rw [lo_do_lookup_found s vt le fd attr attr2 p h1 h2 hfind h3] at hlk
          simp only [Prod.mk.injEq] at hlk
          obtain ⟨ha, hb⟩ := hlk
          have ha' := Except.ok.inj ha
          subst hb
          rw [← ha']
          exact bump_unref_cancel s h p (by
            have := List.mem_of_find?_eq_some hfind
            exact this)
      | none =>
        cases ha : le.allocOk with
        | false =>
          rw [show lo_do_lookup s vt le = (.error ENOMEM, s) from by
            simp [lo_do_lookup, lo_find, h1, h2, hfind, ha]] at hlk
          simp at hlk
        | true =>
          cases h3 : le.fstatInode with
          | error e =>
            rw [lo_do_lookup_new_err s vt le fd attr e h1 h2 hfind ha h3] at hlk
            simp at hlk
          | ok attr2 =>
            rw [lo_do_lookup_new s vt le fd attr attr2 h1 h2 hfind ha h3] at hlk
            simp only [Prod.mk.injEq] at hlk
            obtain ⟨hea, hb⟩ := hlk
            have hea' := Except.ok.inj hea
            subst hb
            rw [← hea']
            exact insert_unref_cancel s h (newInode s le fd attr) rfl rfl

/-- C3.  Readdirplus refcount conservation: when a non-dot entry's lookup
succeeded but the formatted entry overflows the remaining buffer, the loop
stops without committing it and releases exactly the one reference the
lookup took, so the table (and every per-key refcount) is exactly as
before the entry was processed. -/
theorem c3_readdirplus_overflow_conservation (env : ReaddirEnv) (vt : Nat → Int)
    (s s1 : LoState) (E : Dirent) (rest : List DirRead) (rem : Nat)
    (acc : List DirentOut) (ep : EntryParam)
    (hWf : Wf s)
    (hdot : is_dot_or_dotdot E.d_name = false)
    (hlk : lo_do_lookup s vt (env.lookupEnv E) = (Except.ok ep, s1))
    (hov : rem < env.entsizePlus E ep) :
    readdirLoop env vt true s (.entry E :: rest) rem acc
      = ⟨none, acc, rem, (unref_inode s1 (some ep.ino) 1).1⟩ ∧
    (unref_inode s1 (some ep.ino) 1).1.inodes = s.inodes ∧
    (∀ k, refcountOfKey (unref_inode s1 (some ep.ino) 1).1.inodes k
      = refcountOfKey s.inodes k) := by
  have hnet := lookup_then_unref s s1 vt (env.lookupEnv E) ep hWf hlk
  refine ⟨?_, hnet, fun k => by rw [hnet]⟩
  simp [readdirLoop, hdot, hlk, hov]

theorem c3_witness :
    Wf (⟨[⟨5, 7, false, ⟨10, 3⟩, 1, 0, 0⟩], 6, 2⟩ : LoState) ∧
    is_dot_or_dotdot "f" = false ∧
    (unref_inode ⟨[⟨5, 7, false, ⟨10, 3⟩, 2, 0, 0⟩], 6, 2⟩
        (some (⟨5, ⟨10, 3, 0x8000⟩, 0, 0⟩ : EntryParam).ino) 1).1.inodes
      = (⟨[⟨5, 7, false, ⟨10, 3⟩, 1, 0, 0⟩], 6, 2⟩ : LoState).inodes :=
  ⟨by decide, by decide,
   (c3_readdirplus_overflow_conservation
     ⟨fun _ => ⟨.ok 9, .ok ⟨10, 3, 0x8000⟩, true, 0, 0, .ok ⟨10, 3, 0x8000⟩⟩,
      fun _ _ => 100, fun _ => 100⟩
     (fun _ => 0) ⟨[⟨5, 7, false, ⟨10, 3⟩, 1, 0, 0⟩], 6, 2⟩
     ⟨[⟨5, 7, false, ⟨10, 3⟩, 2, 0, 0⟩], 6, 2⟩
     ⟨10, 1, 8, "f"⟩ [] 0 [] ⟨5, ⟨10, 3, 0x8000⟩, 0, 0⟩
     (by decide) (by decide) rfl (by decide)).2.1⟩

/-- C8.  Readdirplus synthesizes "." and ".." entries: the fuse entry
carries inode handle 0 and a directory mode (when the host reports DT_DIR
for the dirent), and no lookup takes place — the loop continues (or stops
on overflow) with the state untouched. -/
theorem c8_readdirplus_dot_entries (env : ReaddirEnv) (vt : Nat → Int)
    (s : LoState) (E : Dirent) (rest : List DirRead) (rem : Nat)
    (acc : List DirentOut)
    (hdot : is_dot_or_dotdot E.d_name = true) (hDT : E.d_type = 4) :
    (dot_entry_param E).ino = 0 ∧
    S_ISDIR (dot_entry_param E).attr.st_mode = true ∧
    (rem < env.entsizePlus E (dot_entry_param E) →
      readdirLoop env vt true s (.entry E :: rest) rem acc = ⟨none, acc, rem, s⟩) ∧
    (env.entsizePlus E (dot_entry_param E) ≤ rem →
      readdirLoop env vt true s (.entry E :: rest) rem acc
        = readdirLoop env vt true s rest (rem - env.entsizePlus E (dot_entry_param E))
            (acc ++ [DirentOut.plus E (dot_entry_param E)])) := by
  refine ⟨rfl, ?_, ?_, ?_⟩
  · simp only [dot_entry_param, S_ISDIR, S_IFDIR, hDT]
    decide
  · intro hov
    simp [readdirLoop, hdot, hov]
  · intro hfit
    have hov : ¬ (rem < env.entsizePlus E (dot_entry_param E)) := by omega
    simp [readdirLoop, hdot, hov]

theorem c8_witness :
    is_dot_or_dotdot "." = true ∧
    (dot_entry_param ⟨1, 1, 4, "."⟩).ino = 0 ∧
    S_ISDIR (dot_entry_param ⟨1, 1, 4, "."⟩).attr.st_mode = true := by
  have h := c8_readdirplus_dot_entries
    ⟨fun _ => ⟨.error 1, .error 1, false, 0, 0, .error 1⟩, fun _ _ => 1, fun _ => 1⟩
    (fun _ => 0) ⟨[], 1, 2⟩ ⟨1, 1, 4, "."⟩ [] 0 [] (by decide) (by decide)
  exact ⟨by decide, h.1, h.2.1⟩

lemma readdirLoop_progress (env : ReaddirEnv) (vt : Nat → Int) (plus : Bool)
    (hpos : ∀ E ep, 1 ≤ env.entsizePlus E ep ∧ 1 ≤ env.entsize E) :
    ∀ (stream : List DirRead) (s : LoState) (rem : Nat) (acc : List DirentOut),
      ((readdirLoop env vt plus s stream rem acc).rem = rem ∧
       (readdirLoop env vt plus s stream rem acc).committed = acc) ∨
      ((readdirLoop env vt plus s stream rem acc).rem < rem ∧
       acc.length < (readdirLoop env vt plus s stream rem acc).committed.length) := by
  intro stream
  induction stream with
  | nil =>
    intro s rem acc
    left
    exact ⟨rfl, rfl⟩
  | cons hd rest ih =>
    intro s rem acc
    cases hd with
    | rfail e =>
      left
      exact ⟨rfl, rfl⟩
    | entry E =>
      cases plus with
      | false =>
        by_cases hov : rem < env.entsize E
        · left
          constructor <;> simp [readdirLoop, hov]
        · have heq : readdirLoop env vt false s (.entry E :: rest) rem acc
              = readdirLoop env vt false s rest (rem - env.entsize E)
                  (acc ++ [.plain E (plain_entry_stat E)]) := by
            simp [readdirLoop, hov]
          rw [heq]
          have hpos1 := (hpos E (dot_entry_param E)).2
          rcases ih s (rem - env.entsize E) (acc ++ [.plain E (plain_entry_stat E)])
            with ⟨h1, h2⟩ | ⟨h1, h2⟩
          · right
            refine ⟨by omega, ?_⟩
            rw [h2]
            simp
          · right
            refine ⟨by omega, ?_⟩
            have hlen : (acc ++ [DirentOut.plain E (plain_entry_stat E)]).length
                = acc.length + 1 := by simp
            omega
      | true =>
        by_cases hdot : is_dot_or_dotdot E.d_name
        · by_cases hov : rem < env.entsizePlus E (dot_entry_param E)
          · left
            constructor <;> simp [readdirLoop, hdot, hov]
          · have heq : readdirLoop env vt true s (.entry E :: rest) rem acc
                = readdirLoop env vt true s rest
                    (rem - env.entsizePlus E (dot_entry_param E))
                    (acc ++ [.plus E (dot_entry_param E)]) := by
              simp [readdirLoop, hdot, hov]
            rw [heq]
            have hpos1 := (hpos E (dot_entry_param E)).1
            rcases ih s (rem - env.entsizePlus E (dot_entry_param E))
                (acc ++ [.plus E (dot_entry_param E)]) with ⟨h1, h2⟩ | ⟨h1, h2⟩
            · right
              refine ⟨by omega, ?_⟩
              rw [h2]
              simp
            · right
              refine ⟨by omega, ?_⟩
              have hlen : (acc ++ [DirentOut.plus E (dot_entry_param E)]).length
                  = acc.length + 1 := by simp
              omega
        · cases hlk : lo_do_lookup s vt (env.lookupEnv E) with
          | mk res s1 =>
            cases res with
            | error e =>
              left
              constructor <;> simp [readdirLoop, hdot, hlk]
            | ok ep =>
              by_cases hov : rem < env.entsizePlus E ep
              · left
                constructor <;> simp [readdirLoop, hdot, hlk, hov]
              · have heq : readdirLoop env vt true s (.entry E :: rest) rem acc
                    = readdirLoop env vt true s1 rest (rem - env.entsizePlus E ep)
                        (acc ++ [.plus E ep]) := by
                  simp [readdirLoop, hdot, hlk, hov]
                rw [heq]
                have hpos1 := (hpos E ep).1
                rcases ih s1 (rem - env.entsizePlus E ep) (acc ++ [.plus E ep])
                  with ⟨h1, h2⟩ | ⟨h1, h2⟩
                · right
                  refine ⟨by omega, ?_⟩
                  rw [h2]
                  simp
                · right
                  refine ⟨by omega, ?_⟩
                  have hlen : (acc ++ [DirentOut.plus E ep]).length
                      = acc.length + 1 := by simp
                  omega

/-- C4.  Readdir partial-result policy: when the entry loop hits an error,
the request replies with that error only if no entry was placed yet
(buffer still empty); if at least one entry was already placed, it replies
success with exactly the entries collected so far and suppresses the
error.  Entry sizes computed by the transport are at least 1 byte. -/
theorem c4_readdir_partial_result (env : ReaddirEnv) (vt : Nat → Int)
    (plus : Bool) (s : LoState) (size : Nat) (stream : List DirRead) (e : Nat)
    (hpos : ∀ E ep, 1 ≤ env.entsizePlus E ep ∧ 1 ≤ env.entsize E)
    (herr : (readdirLoop env vt plus s stream size []).err = some e) :
    ((readdirLoop env vt plus s stream size []).committed = [] →
      (lo_do_readdir env vt plus s size stream true).1 = Reply.rerr e) ∧
    ((readdirLoop env vt plus s stream size []).committed ≠ [] →
      (lo_do_readdir env vt plus s size stream true).1
        = Reply.buf (readdirLoop env vt plus s stream size []).committed) := by
  have hprog := readdirLoop_progress env vt plus hpos stream s size []
  constructor
  · intro hc
    have hrem : (readdirLoop env vt plus s stream size []).rem = size := by
      rcases hprog with ⟨h1, _⟩ | ⟨_, h2⟩
      · exact h1
      · rw [hc] at h2
        simp at h2
    simp [lo_do_readdir, herr, hrem]
  · intro hc
    have hrem : ¬ ((readdirLoop env vt plus s stream size []).rem = size) := by
      rcases hprog with ⟨_, h2⟩ | ⟨h1, _⟩
      · exact absurd h2 hc
      · omega
    simp [lo_do_readdir, herr, hrem]

theorem c4_witness :
    (readdirLoop ⟨fun _ => ⟨.error 1, .error 1, false, 0, 0, .error 1⟩,
        fun _ _ => 1, fun _ => 1⟩ (fun _ => 0) false ⟨[], 1, 2⟩
        [.rfail 5] 100 []).err = some 5 ∧
    (lo_do_readdir ⟨fun _ => ⟨.error 1, .error 1, false, 0, 0, .error 1⟩,
        fun _ _ => 1, fun _ => 1⟩ (fun _ => 0) false ⟨[], 1, 2⟩
        100 [.rfail 5] true).1 = Reply.rerr 5 :=
  ⟨rfl,
   (c4_readdir_partial_result
     ⟨fun _ => ⟨.error 1, .error 1, false, 0, 0, .error 1⟩, fun _ _ => 1, fun _ => 1⟩
     (fun _ => 0) false ⟨[], 1, 2⟩ 100 [.rfail 5] 5
     (fun _ _ => ⟨Nat.le_refl 1, Nat.le_refl 1⟩) rfl).1 rfl⟩

end PassthroughLL
